import Mathlib

/-!
# Verification of the thumbor image-proxy core (src/src/main.rs)

Shallow embedding of the request pipeline of the thumbor service:

* an LRU cache model for the `lru::LruCache<u64, Bytes>` used at
  `src/src/main.rs:35` (capacity 1024, `get` promotes on hit, `put` inserts and
  evicts the least-recently-used entry when a new key arrives at capacity);
* `retrieve_image` (`src/src/main.rs:81-102`): hash the URL with the default
  hasher (SipHash-1-3 with zero keys over the string bytes followed by a
  `0xff` terminator byte), then look the key up in the cache; on a miss perform
  one fetch (`reqwest::get` followed by `resp.bytes()`, neither of which
  inspects the HTTP status code) and insert the body into the cache;
* the spec codec of the `pb` module (absent from the source tree), modelled
  from the design document: a URL-safe token, one self-delimited sub-token per
  operation carrying a type tag and then the fields in fixed order;
* lossy URL parsing (`percent_decode_str(&url).decode_utf8_lossy()`,
  `src/src/main.rs:56`);
* the `generate` handler (`src/src/main.rs:52-79`) with the transformer
  (`engine` module, absent from the source tree) kept abstract as the external
  capability the design document describes.
-/

namespace Thumbor

/-! ## Bytes and the LRU cache model -/

/-- Raw byte buffers (`bytes::Bytes`): a list of byte values. -/
abbrev Bytes := List Nat

/-- Model of `lru::LruCache<K, V>`: the entry list is kept in recency order,
most recently used first, so the least recently used entry is the last one.
`cap` is the fixed maximum entry count (a `NonZeroUsize` in the source). -/
structure LruCache (K V : Type) where
  cap : Nat
  entries : List (K × V)
  deriving Repr, DecidableEq

/-- `LruCache::new(cap)`: an empty cache with the given capacity. -/
def LruCache.empty (K V : Type) (cap : Nat) : LruCache K V :=
  ⟨cap, []⟩

/-- Number of entries currently stored. -/
def LruCache.size {K V : Type} (c : LruCache K V) : Nat :=
  c.entries.length

/-- Pure lookup (no recency update); used to state cache-content properties. -/
def LruCache.lookup {K V : Type} [DecidableEq K] (c : LruCache K V) (k : K) :
    Option V :=
  (c.entries.find? (fun p => p.1 == k)).map (·.2)

/-- `LruCache::get`: on a hit the entry is promoted to most recently used and
its value returned; a miss leaves the cache untouched. -/
def LruCache.get {K V : Type} [DecidableEq K] (c : LruCache K V) (k : K) :
    Option V × LruCache K V :=
  match c.entries.find? (fun p => p.1 == k) with
  | some e => (some e.2, ⟨c.cap, (k, e.2) :: c.entries.filter (fun p => !(p.1 == k))⟩)
  | none => (none, c)

/-- `LruCache::put`: the key becomes most recently used; when a new key is
inserted while the cache is full, the least recently used entry (the last one)
is evicted first. -/
def LruCache.put {K V : Type} [DecidableEq K] (c : LruCache K V) (k : K) (v : V) :
    LruCache K V :=
  let rest := c.entries.filter (fun p => !(p.1 == k))
  if rest.length < c.cap then ⟨c.cap, (k, v) :: rest⟩
  else ⟨c.cap, (k, v) :: rest.dropLast⟩

/-! ## Fetch outcomes

`retrieve_image` performs `reqwest::get(url).await?` followed by
`resp.bytes().await?`.  Either call can fail with a transport error (the
two `?`s); a completed response carries an HTTP status code and a body, and
the source never inspects the status. -/

/-- Outcome of the single network retrieval a cache miss performs:
the connection may fail (`reqwest::get` returns `Err`), reading the body may
fail (`resp.bytes()` returns `Err`), or a response with some HTTP status code
and body bytes is obtained. -/
inductive FetchOutcome where
  | connectFail
  | bodyFail (status : Nat)
  | success (status : Nat) (body : Bytes)
  deriving Repr, DecidableEq

/-- The fetch errors (`anyhow::Error` values) that `retrieve_image`
propagates. -/
inductive FetchErr where
  | connect
  | body (status : Nat)
  deriving Repr, DecidableEq

/-- Decidable equality for `Except`, so concrete results can be evaluated. -/
instance {e a : Type} [DecidableEq e] [DecidableEq a] : DecidableEq (Except e a)
  | Except.ok x, Except.ok y =>
    if h : x = y then Decidable.isTrue (congrArg Except.ok h)
    else Decidable.isFalse (fun heq => h (Except.ok.inj heq))
  | Except.ok _, Except.error _ => Decidable.isFalse (fun heq => Except.noConfusion heq)
  | Except.error _, Except.ok _ => Decidable.isFalse (fun heq => Except.noConfusion heq)
  | Except.error x, Except.error y =>
    if h : x = y then Decidable.isTrue (congrArg Except.error h)
    else Decidable.isFalse (fun heq => h (Except.error.inj heq))

/-- The cache type of `src/src/main.rs:30`, keyed by 64-bit hashes. -/
abbrev Cache := LruCache Nat Bytes

/-- The body of `retrieve_image` after the key is computed
(`src/src/main.rs:86-101`), which is exactly the design document's
`getOrFetch(key, fetch)`: on a hit return the cached bytes; on a miss run the
fetch once and insert the body on success.  The third component counts how
many times the fetch was invoked, so that "does not invoke fetch" is a
statement about the model. -/
def getOrFetch (key : Nat) (outcome : FetchOutcome) (c : Cache) :
    Except FetchErr Bytes × Cache × Nat :=
  match c.get key with
  | (some v, c2) => (Except.ok v, c2, 0)
  | (none, c2) =>
    match outcome with
    | FetchOutcome.connectFail => (Except.error FetchErr.connect, c2, 1)
    | FetchOutcome.bodyFail s => (Except.error (FetchErr.body s), c2, 1)
    | FetchOutcome.success _ body => (Except.ok body, c2.put key body, 1)

/-! ## The cache key: `DefaultHasher` (SipHash-1-3, zero keys)

`retrieve_image` computes `key` as `DefaultHasher::new()` fed with the URL
string (`src/src/main.rs:82-84`).  `DefaultHasher::new()` is SipHash-1-3 with
both keys zero, and `str::hash` writes the string's UTF-8 bytes followed by a
single `0xff` byte.  All 64-bit arithmetic is modelled on `Nat` modulo
`2 ^ 64`. -/

/-- Truncate to 64 bits. -/
def w64 (n : Nat) : Nat := n % 2 ^ 64

/-- Wrapping 64-bit addition. -/
def wadd (a b : Nat) : Nat := (a + b) % 2 ^ 64

/-- 64-bit left rotation (for `x < 2 ^ 64`). -/
def rotl (x n : Nat) : Nat :=
  (x * 2 ^ n + x / 2 ^ (64 - n)) % 2 ^ 64

/-- The SipHash internal state. -/
structure SipState where
  v0 : Nat
  v1 : Nat
  v2 : Nat
  v3 : Nat
  deriving Repr, DecidableEq

/-- One SipRound of the SipHash family. -/
def sipRound (s : SipState) : SipState :=
  let v0 := wadd s.v0 s.v1
  let v1 := rotl s.v1 13
  let v1 := Nat.xor v1 v0
  let v0 := rotl v0 32
  let v2 := wadd s.v2 s.v3
  let v3 := rotl s.v3 16
  let v3 := Nat.xor v3 v2
  let v0 := wadd v0 v3
  let v3 := rotl v3 21
  let v3 := Nat.xor v3 v0
  let v2 := wadd v2 v1
  let v1 := rotl v1 17
  let v1 := Nat.xor v1 v2
  let v2 := rotl v2 32
  ⟨v0, v1, v2, v3⟩

/-- Iterate `sipRound`. -/
def sipRounds : Nat → SipState → SipState
  | 0, s => s
  | n + 1, s => sipRounds n (sipRound s)

/-- Little-endian 64-bit word from up to eight bytes. -/
def le64 (bs : List Nat) : Nat :=
  match bs with
  | [] => 0
  | b :: rest => b % 256 + 256 * le64 rest

/-- Compress one message word with `c = 1` SipRound (SipHash-1-3). -/
def sipCompress (s : SipState) (m : Nat) : SipState :=
  let s := { s with v3 := Nat.xor s.v3 m }
  let s := sipRounds 1 s
  { s with v0 := Nat.xor s.v0 m }

/-- Process the message bytes of total length `len`: full 8-byte words first,
then the final word holding the remaining bytes with `len % 256` in the top
byte, then the finalization (`v2 ^= 0xff` and `d = 3` SipRounds). -/
def sipProcess (len : Nat) (s : SipState) : List Nat → SipState
  | b0 :: b1 :: b2 :: b3 :: b4 :: b5 :: b6 :: b7 :: rest =>
    sipProcess len (sipCompress s (le64 [b0, b1, b2, b3, b4, b5, b6, b7])) rest
  | tail =>
    let lastWord := le64 tail + (len % 256) * 2 ^ 56
    let s := sipCompress s lastWord
    let s := { s with v2 := Nat.xor s.v2 0xff }
    sipRounds 3 s

/-- SipHash-1-3 of a byte list with keys `k0 = k1 = 0`
(`DefaultHasher::new()`). -/
def siphash13 (msg : List Nat) : Nat :=
  let s : SipState :=
    ⟨0x736f6d6570736575, 0x646f72616e646f6d, 0x6c7967656e657261, 0x7465646279746573⟩
  let s := sipProcess msg.length s msg
  Nat.xor (Nat.xor s.v0 s.v1) (Nat.xor s.v2 s.v3)

/-- UTF-8 encoding of one character (used both for string hashing and for
percent-decoding, which operates on the UTF-8 bytes of the path segment). -/
def charUtf8 (c : Char) : List Nat :=
  let n := c.toNat
  if n < 0x80 then [n]
  else if n < 0x800 then [0xC0 + n / 64, 0x80 + n % 64]
  else if n < 0x10000 then [0xE0 + n / 4096, 0x80 + n / 64 % 64, 0x80 + n % 64]
  else [0xF0 + n / 262144, 0x80 + n / 4096 % 64, 0x80 + n / 64 % 64, 0x80 + n % 64]

/-- UTF-8 bytes of a string. -/
def strBytes (s : String) : List Nat :=
  s.data.flatMap charUtf8

/-- The cache key of `retrieve_image` (`src/src/main.rs:82-84`): hash the URL
string with the default hasher.  `str::hash` feeds the UTF-8 bytes followed by
a `0xff` terminator byte. -/
def urlKey (url : String) : Nat :=
  siphash13 (strBytes url ++ [0xff])

/-- `retrieve_image` (`src/src/main.rs:81-102`): compute the 64-bit key from
the URL, then run the get-or-fetch body on the shared cache. -/
def retrieve_image (url : String) (outcome : FetchOutcome) (c : Cache) :
    Except FetchErr Bytes × Cache × Nat :=
  getOrFetch (urlKey url) outcome c

/-! ## The spec codec

Modelled from the spec: the `pb` module that defines `ImageSpec`, the
`Spec` operation variants and the token codec (`TryFrom<&str>` /
`Into<String>`) is not in the source tree; only `src/src/main.rs` uses it.
Per the design document: an `ImageSpec` is an ordered sequence of operations
(`Resize { width, height, filter }`, `Watermark { x, y }`,
`ColorFilter { kind }` over closed `FilterKind` enumerations); the token
alphabet is URL-path-safe; each operation serializes to a self-delimited
sub-token carrying a type tag and then its fields in fixed order, with a
separator that never occurs inside a field; decoding is strict (unknown tags,
missing fields, non-numeric fields and out-of-range enumeration values all
fail); the empty sequence is valid. -/

/-- Resampling filters for `Resize` (the source constructs
`resize::SampleFilter::CatmullRom` at `src/src/main.rs:106`). -/
inductive SampleFilter where
  | undefined
  | nearest
  | triangle
  | catmullRom
  | gaussian
  | lanczos3
  deriving Repr, DecidableEq

/-- Stylistic color filters (the source constructs `filter::Filter::Marine`
at `src/src/main.rs:108`). -/
inductive Filter where
  | unspecified
  | oceanic
  | islands
  | marine
  deriving Repr, DecidableEq

/-- One transformation operation: a tagged variant. -/
inductive Spec where
  | resize (width height : Nat) (filter : SampleFilter)
  | watermark (x y : Nat)
  | colorFilter (kind : Filter)
  deriving Repr, DecidableEq

/-- `Spec::new_resize` (`src/src/main.rs:106`). -/
def Spec.new_resize (width height : Nat) (filter : SampleFilter) : Spec :=
  Spec.resize width height filter

/-- `Spec::new_watermark` (`src/src/main.rs:107`). -/
def Spec.new_watermark (x y : Nat) : Spec :=
  Spec.watermark x y

/-- `Spec::new_filter` (`src/src/main.rs:108`). -/
def Spec.new_filter (kind : Filter) : Spec :=
  Spec.colorFilter kind

/-- The ordered operation list of one request. -/
structure ImageSpec where
  specs : List Spec
  deriving Repr, DecidableEq

/-- `ImageSpec::new` (`src/src/main.rs:109`). -/
def ImageSpec.new (specs : List Spec) : ImageSpec :=
  ⟨specs⟩

/-- Numeric wire tag of a resampling filter (closed enumeration). -/
def SampleFilter.tag : SampleFilter → Nat
  | undefined => 0
  | nearest => 1
  | triangle => 2
  | catmullRom => 3
  | gaussian => 4
  | lanczos3 => 5

/-- Strict decoding of a resampling-filter tag; out-of-range values fail. -/
def SampleFilter.ofTag : Nat → Option SampleFilter
  | 0 => some .undefined
  | 1 => some .nearest
  | 2 => some .triangle
  | 3 => some .catmullRom
  | 4 => some .gaussian
  | 5 => some .lanczos3
  | _ => none

/-- Numeric wire tag of a color filter (closed enumeration). -/
def Filter.tag : Filter → Nat
  | unspecified => 0
  | oceanic => 1
  | islands => 2
  | marine => 3

/-- Strict decoding of a color-filter tag; out-of-range values fail. -/
def Filter.ofTag : Nat → Option Filter
  | 0 => some .unspecified
  | 1 => some .oceanic
  | 2 => some .islands
  | 3 => some .marine
  | _ => none

/-- Decimal digit character for `n < 10`. -/
def digitChar (n : Nat) : Char :=
  Char.ofNat (48 + n)

/-- Decimal representation of a number, most significant digit first. -/
def natToDigits (n : Nat) : List Char :=
  if _h : n < 10 then [digitChar n]
  else natToDigits (n / 10) ++ [digitChar (n % 10)]
  decreasing_by exact Nat.div_lt_self (by omega) (by omega)

/-- Accumulate decimal digits left to right. -/
def digitsVal (acc : Nat) : List Char → Nat
  | [] => acc
  | c :: cs => digitsVal (acc * 10 + (c.toNat - 48)) cs

/-- Strict decimal parse: non-empty, digits only. -/
def parseNat (cs : List Char) : Option Nat :=
  if cs ≠ [] ∧ cs.all Char.isDigit then some (digitsVal 0 cs) else none

/-- Join pieces with a separator character. -/
def joinSep (sep : Char) : List (List Char) → List Char
  | [] => []
  | [x] => x
  | x :: y :: rest => x ++ sep :: joinSep sep (y :: rest)

/-- Split on a separator character; always returns at least one piece. -/
def splitSep (sep : Char) : List Char → List (List Char)
  | [] => [[]]
  | c :: cs =>
    match splitSep sep cs with
    | [] => [[c]]
    | r :: rs => if c = sep then [] :: r :: rs else (c :: r) :: rs

/-- Encode one operation as its sub-token: a type tag, then the fields in
fixed order, separated by a character that never occurs inside a field. -/
def Spec.encode : Spec → List Char
  | .resize w h f => joinSep '_' [['r'], natToDigits w, natToDigits h, natToDigits f.tag]
  | .watermark x y => joinSep '_' [['w'], natToDigits x, natToDigits y]
  | .colorFilter k => joinSep '_' [['f'], natToDigits k.tag]

/-- Strictly decode one sub-token: known tag, exact field count, numeric
fields, in-range enumeration values; anything else fails. -/
def Spec.decode (cs : List Char) : Option Spec :=
  match splitSep '_' cs with
  | [['r'], wcs, hcs, fcs] =>
    match parseNat wcs, parseNat hcs, parseNat fcs with
    | some w, some h, some ftag => (SampleFilter.ofTag ftag).map (Spec.resize w h)
    | _, _, _ => none
  | [['w'], xcs, ycs] =>
    match parseNat xcs, parseNat ycs with
    | some x, some y => some (Spec.watermark x y)
    | _, _ => none
  | [['f'], kcs] =>
    match parseNat kcs with
    | some ktag => (Filter.ofTag ktag).map Spec.colorFilter
    | _ => none
  | _ => none

/-- Encode an `ImageSpec` to its URL-safe token: the operation sub-tokens in
order, joined by a second separator; the empty sequence encodes to the empty
token. -/
def ImageSpec.encode (s : ImageSpec) : String :=
  String.mk (joinSep '-' (s.specs.map Spec.encode))

/-- Decode a token (`TryFrom<&str> for ImageSpec`, used at
`src/src/main.rs:57-60`): the empty token is the empty sequence; otherwise
split into sub-tokens and strictly decode each one. -/
def ImageSpec.decode (tok : String) : Option ImageSpec :=
  match tok.data with
  | [] => some ⟨[]⟩
  | cs => (splitSep '-' cs).mapM Spec.decode |>.map ImageSpec.mk

/-! ## URL parsing: `percent_decode_str(&url).decode_utf8_lossy()`

`src/src/main.rs:56`.  Percent-decoding operates on the UTF-8 bytes of the
path segment: a `%` followed by two hex digits becomes the denoted byte; a
`%` not followed by two hex digits is passed through literally.  The result
is decoded as UTF-8 lossily: every maximal invalid byte sequence becomes a
single replacement character `U+FFFD`, and the decode never fails. -/

/-- Value of one hexadecimal digit, or `none`. -/
def hexVal (c : Char) : Option Nat :=
  if '0' ≤ c ∧ c ≤ '9' then some (c.toNat - 48)
  else if 'a' ≤ c ∧ c ≤ 'f' then some (c.toNat - 87)
  else if 'A' ≤ c ∧ c ≤ 'F' then some (c.toNat - 55)
  else none

/-- `percent_decode_str`: decode `%hh` escapes to bytes, pass everything else
(including invalid escapes) through as its UTF-8 bytes. -/
def percentDecode : List Char → List Nat
  | [] => []
  | '%' :: h1 :: h2 :: rest =>
    match hexVal h1, hexVal h2 with
    | some a, some b => (16 * a + b) :: percentDecode rest
    | _, _ => 37 :: percentDecode (h1 :: h2 :: rest)
  | c :: rest => charUtf8 c ++ percentDecode rest
  termination_by l => l.length

/-- The Unicode replacement character `U+FFFD`. -/
def repl : Char := Char.ofNat 0xFFFD

/-- Is `b` a UTF-8 continuation byte (`0x80..0xBF`)? -/
def isCont (b : Nat) : Bool := 0x80 ≤ b ∧ b ≤ 0xBF

/-- Valid second byte after a three-byte lead (excludes overlong and
surrogate encodings): `E0` requires `A0..BF`, `ED` requires `80..9F`, the
other leads require `80..BF`. -/
def utf8Cont2Ok (b b2 : Nat) : Bool :=
  if b = 0xE0 then 0xA0 ≤ b2 ∧ b2 ≤ 0xBF
  else if b = 0xED then 0x80 ≤ b2 ∧ b2 ≤ 0x9F
  else isCont b2

/-- Valid second byte after a four-byte lead (excludes overlong and
out-of-range encodings): `F0` requires `90..BF`, `F4` requires `80..8F`, the
other leads require `80..BF`. -/
def utf8Cont4Ok (b b2 : Nat) : Bool :=
  if b = 0xF0 then 0x90 ≤ b2 ∧ b2 ≤ 0xBF
  else if b = 0xF4 then 0x80 ≤ b2 ∧ b2 ≤ 0x8F
  else isCont b2

/-- Decode one code point from a lead byte `b` and the remaining bytes:
well-formed sequences become their code point and the bytes after it; the
maximal invalid subsequence starting at `b` becomes one `U+FFFD` and decoding
resumes at the first byte not part of it. -/
def utf8Step (b : Nat) (rest : List Nat) : Char × List Nat :=
  if b ≤ 0x7F then (Char.ofNat b, rest)
  else if 0xC2 ≤ b ∧ b ≤ 0xDF then
    match rest with
    | b2 :: rest2 =>
      if isCont b2 then (Char.ofNat ((b - 0xC0) * 64 + (b2 - 0x80)), rest2)
      else (repl, b2 :: rest2)
    | [] => (repl, [])
  else if 0xE0 ≤ b ∧ b ≤ 0xEF then
    match rest with
    | b2 :: b3 :: rest3 =>
      if utf8Cont2Ok b b2 then
        if isCont b3 then
          (Char.ofNat ((b - 0xE0) * 4096 + (b2 - 0x80) * 64 + (b3 - 0x80)), rest3)
        else (repl, b3 :: rest3)
      else (repl, b2 :: b3 :: rest3)
    | [b2] => if utf8Cont2Ok b b2 then (repl, []) else (repl, [b2])
    | [] => (repl, [])
  else if 0xF0 ≤ b ∧ b ≤ 0xF4 then
    match rest with
    | b2 :: b3 :: b4 :: rest4 =>
      if utf8Cont4Ok b b2 then
        if isCont b3 then
          if isCont b4 then
            (Char.ofNat ((b - 0xF0) * 262144 + (b2 - 0x80) * 4096 +
              (b3 - 0x80) * 64 + (b4 - 0x80)), rest4)
          else (repl, b4 :: rest4)
        else (repl, b3 :: b4 :: rest4)
      else (repl, b2 :: b3 :: b4 :: rest4)
    | [b2, b3] =>
      if utf8Cont4Ok b b2 then
        if isCont b3 then (repl, []) else (repl, [b3])
      else (repl, [b2, b3])
    | [b2] => if utf8Cont4Ok b b2 then (repl, []) else (repl, [b2])
    | [] => (repl, [])
  else (repl, rest)

/-- One decoding step never keeps more bytes than it was given. -/
theorem utf8Step_snd_le (b : Nat) (rest : List Nat) :
    (utf8Step b rest).2.length ≤ rest.length := by
  rcases rest with _ | ⟨b2, _ | ⟨b3, _ | ⟨b4, rest4⟩⟩⟩ <;>
    · unfold utf8Step
      repeat' split
      all_goals simp_all
      all_goals omega

/-- Lossy UTF-8 decoding: well-formed sequences become their code points,
every maximal invalid subsequence becomes one `U+FFFD`.  Total: no input
fails. -/
def utf8Lossy : List Nat → List Char
  | [] => []
  | b :: rest => (utf8Step b rest).1 :: utf8Lossy (utf8Step b rest).2
  termination_by l => l.length
  decreasing_by
    simp only [List.length_cons]
    exact Nat.lt_succ_of_le (utf8Step_snd_le b rest)

/-- The handler's URL stage (`src/src/main.rs:56`): percent-decode the path
segment and decode the bytes to a string lossily.  A total function: no URL
is ever rejected here. -/
def parseUrlSegment (url : String) : String :=
  String.mk (utf8Lossy (percentDecode url.data))

/-! ## The transformer and the `generate` handler

The `engine` module (the `Engine` trait and the `Photon` engine) is absent
from the source tree; the design document describes it as an external
capability with `decode(Bytes) -> Result<Image, DecodeError>`,
`apply(Image, Operation) -> Result<Image, OperationError>` and an infallible
`encode(Image, OutputFormat) -> Bytes`.  `generate` is therefore parametric
in the transformer.  Its own control flow is taken from
`src/src/main.rs:52-79`: decode the spec token (400 on failure), retrieve the
bytes (400 on failure), convert them to an engine (500 on failure), run
`engine.apply(&spec.specs)` as a plain statement whose outcome is not
consulted, then encode to PNG and answer 200. -/

/-- Error of one transformation step (the design document's
`OperationError`). -/
inductive OpError where
  | opError
  deriving Repr, DecidableEq

/-- The external transformer capability over an image type `Img`:
`try_into` on the fetched bytes, one fallible operation application, and the
infallible final encode (`engine.generate(ImageFormat::Png)`). -/
structure Transformer (Img : Type) where
  decodeImage : Bytes → Option Img
  applyOne : Img → Spec → Except OpError Img
  encodeImage : Img → Bytes

/-- Modelled from the spec: `Engine::apply` of the absent `engine` module
folds the per-operation `apply` over the operation list in order, stopping at
the first failure; the result is the image reached so far together with the
first error, if any. -/
def applySpecs {Img : Type} (apply : Img → Spec → Except OpError Img) :
    Img → List Spec → Img × Option OpError
  | img, [] => (img, none)
  | img, s :: rest =>
    match apply img s with
    | Except.ok img2 => applySpecs apply img2 rest
    | Except.error e => (img, some e)

/-- The HTTP status codes `generate` can return on failure. -/
inductive Status where
  | badRequest
  | internalServerError
  deriving Repr, DecidableEq

/-- Numeric value of a status code. -/
def Status.code : Status → Nat
  | badRequest => 400
  | internalServerError => 500

/-- A successful response: headers and the PNG body. -/
abbrev Response := List (String × String) × Bytes

/-- The `generate` handler (`src/src/main.rs:52-79`): lossily percent-decode
the URL segment; decode the spec token, mapping failure to 400; retrieve the
image bytes through the cache, mapping failure to 400; convert the bytes to an
engine, mapping failure to 500; apply the operations (the outcome of
`engine.apply(&spec.specs);` is not consulted); encode to PNG and answer with
a `content-type: image/png` header.  Returns the response or error status
together with the cache state after the request. -/
def generate {Img : Type} (T : Transformer Img) (specTok urlTok : String)
    (outcome : FetchOutcome) (cache : Cache) :
    Except Status Response × Cache :=
  let url := parseUrlSegment urlTok
  match ImageSpec.decode specTok with
  | none => (Except.error Status.badRequest, cache)
  | some spec =>
    match retrieve_image url outcome cache with
    | (Except.error _, c2, _) => (Except.error Status.badRequest, c2)
    | (Except.ok data, c2, _) =>
      match T.decodeImage data with
      | none => (Except.error Status.internalServerError, c2)
      | some engine =>
        let engine := (applySpecs T.applyOne engine spec.specs).1
        let image := T.encodeImage engine
        (Except.ok ([("content-type", "image/png")], image), c2)

/-- The shared cache created in `main` (`src/src/main.rs:35`):
`LruCache::new(NonZeroUsize::new(1024).unwrap())`. -/
def mainCache : Cache := LruCache.empty Nat Bytes 1024

/-- Run a sequence of get-or-fetch calls against a cache, threading the cache
state; `(key, outcome)` describes one call. -/
def runCalls (c : Cache) : List (Nat × FetchOutcome) → Cache
  | [] => c
  | call :: rest => runCalls (getOrFetch call.1 call.2 c).2.1 rest

/-! ## Lemmas about the LRU cache -/

theorem length_filter_not_lt {α : Type} (p : α → Bool) (l : List α) (x : α)
    (hx : x ∈ l) (hpx : p x = true) :
    (l.filter (fun a => !(p a))).length < l.length := by
  induction l with
  | nil => cases hx
  | cons a as ih =>
    rcases List.mem_cons.mp hx with rfl | hmem
    · simp only [List.filter, hpx, Bool.not_true]
      exact Nat.lt_succ_of_le (List.length_filter_le _ _)
    · simp only [List.filter, List.length_cons]
      cases hpa : !(p a)
      · exact Nat.lt_succ_of_lt (ih hmem)
      · simpa using Nat.succ_lt_succ (ih hmem)

theorem LruCache.get_size_le {K V : Type} [DecidableEq K] (c : LruCache K V)
    (k : K) : (c.get k).2.size ≤ c.size := by
  unfold LruCache.get
  cases hfind : c.entries.find? (fun p => p.1 == k) with
  | none => exact Nat.le_refl _
  | some e =>
    have hmem : e ∈ c.entries := List.mem_of_find?_eq_some hfind
    have hpe := List.find?_some hfind
    simpa [LruCache.size] using
      length_filter_not_lt (fun p => p.1 == k) c.entries e hmem hpe

theorem LruCache.get_cap {K V : Type} [DecidableEq K] (c : LruCache K V)
    (k : K) : (c.get k).2.cap = c.cap := by
  unfold LruCache.get
  cases hfind : c.entries.find? (fun p => p.1 == k) <;> rfl

theorem LruCache.put_cap {K V : Type} [DecidableEq K] (c : LruCache K V)
    (k : K) (v : V) : (c.put k v).cap = c.cap := by
  unfold LruCache.put
  by_cases h : (c.entries.filter (fun p => !(p.1 == k))).length < c.cap <;>
    simp [h]

theorem LruCache.put_size_le {K V : Type} [DecidableEq K] (c : LruCache K V)
    (k : K) (v : V) (hcap : 0 < c.cap) (hsize : c.size ≤ c.cap) :
    (c.put k v).size ≤ c.cap := by
  unfold LruCache.put
  have hfle : (c.entries.filter (fun p => !(p.1 == k))).length ≤
      c.entries.length := List.length_filter_le _ _
  by_cases h : (c.entries.filter (fun p => !(p.1 == k))).length < c.cap
  · simp only [h, if_true, LruCache.size, List.length_cons]
    omega
  · simp only [h, if_false, LruCache.size, List.length_cons,
      List.length_dropLast]
    simp only [LruCache.size] at hsize
    omega

theorem getOrFetch_cap (key : Nat) (outcome : FetchOutcome) (c : Cache) :
    (getOrFetch key outcome c).2.1.cap = c.cap := by
  unfold getOrFetch
  cases hget : c.get key with
  | mk found c2 =>
    have hc2 : c2.cap = c.cap := by
      have := LruCache.get_cap c key
      rw [hget] at this
      exact this
    cases found with
    | some v => simpa using hc2
    | none =>
      cases outcome with
      | connectFail => simpa using hc2
      | bodyFail s => simpa using hc2
      | success s body => simp [LruCache.put_cap, hc2]

theorem getOrFetch_size_le (key : Nat) (outcome : FetchOutcome) (c : Cache)
    (hcap : 0 < c.cap) (hsize : c.size ≤ c.cap) :
    (getOrFetch key outcome c).2.1.size ≤ c.cap := by
  unfold getOrFetch
  cases hget : c.get key with
  | mk found c2 =>
    have hc2size : c2.size ≤ c.size := by
      have := LruCache.get_size_le c key
      rw [hget] at this
      exact this
    have hc2cap : c2.cap = c.cap := by
      have := LruCache.get_cap c key
      rw [hget] at this
      exact this
    cases found with
    | some v => simpa using Nat.le_trans hc2size hsize
    | none =>
      cases outcome with
      | connectFail => simpa using Nat.le_trans hc2size hsize
      | bodyFail s => simpa using Nat.le_trans hc2size hsize
      | success s body =>
        have := LruCache.put_size_le c2 key body (hc2cap ▸ hcap)
          (Nat.le_trans hc2size (hc2cap ▸ hsize))
        simpa [hc2cap] using this

/-! ## Claims about the cache -/

/-- C2: for every cache state in which key `K` is present, `getOrFetch`
(the body of `retrieve_image` when the hashed URL key is cached) returns the
stored bytes and does not invoke the fetch (the invocation count is zero). -/
theorem c2_cache_hit_no_fetch (key : Nat) (outcome : FetchOutcome) (c : Cache)
    (v : Bytes) (h : c.lookup key = some v) :
    (getOrFetch key outcome c).1 = Except.ok v ∧
      (getOrFetch key outcome c).2.2 = 0 := by
  unfold LruCache.lookup at h
  unfold getOrFetch LruCache.get
  cases hfind : c.entries.find? (fun p => p.1 == key) with
  | none => rw [hfind] at h; cases h
  | some e =>
    rw [hfind] at h
    simp only [Option.map_some'] at h
    cases h
    simp

/-- Witness for C2 at a concrete cache holding key 5, with a fetch that
would fail if it were consulted. -/
theorem c2_cache_hit_no_fetch_witness :
    (LruCache.mk 2 [(5, [9, 9])] : Cache).lookup 5 = some [9, 9] ∧
      ((getOrFetch 5 FetchOutcome.connectFail ⟨2, [(5, [9, 9])]⟩).1 =
          Except.ok [9, 9] ∧
        (getOrFetch 5 FetchOutcome.connectFail ⟨2, [(5, [9, 9])]⟩).2.2 = 0) :=
  ⟨by decide,
    c2_cache_hit_no_fetch 5 FetchOutcome.connectFail ⟨2, [(5, [9, 9])]⟩ [9, 9]
      (by decide)⟩

/-- C3: on a miss whose fetch fails (connection failure, or body-read
failure), `getOrFetch` returns the whole cache state unchanged — so no entry
for the key exists afterwards and the size is unchanged — and propagates the
fetch error to the caller. -/
theorem c3_failed_fetch_leaves_cache_unchanged (key : Nat) (c : Cache)
    (hmiss : c.lookup key = none) :
    getOrFetch key FetchOutcome.connectFail c =
        (Except.error FetchErr.connect, c, 1) ∧
      ∀ s, getOrFetch key (FetchOutcome.bodyFail s) c =
        (Except.error (FetchErr.body s), c, 1) := by
  unfold LruCache.lookup at hmiss
  unfold getOrFetch LruCache.get
  cases hfind : c.entries.find? (fun p => p.1 == key) with
  | none => exact ⟨rfl, fun s => rfl⟩
  | some e => rw [hfind] at hmiss; cases hmiss

/-- Witness for C3 at a concrete cache not holding key 7. -/
theorem c3_failed_fetch_leaves_cache_unchanged_witness :
    (LruCache.mk 2 [(5, [9, 9])] : Cache).lookup 7 = none ∧
      (getOrFetch 7 FetchOutcome.connectFail ⟨2, [(5, [9, 9])]⟩ =
          (Except.error FetchErr.connect, ⟨2, [(5, [9, 9])]⟩, 1) ∧
        ∀ s, getOrFetch 7 (FetchOutcome.bodyFail s) ⟨2, [(5, [9, 9])]⟩ =
          (Except.error (FetchErr.body s), ⟨2, [(5, [9, 9])]⟩, 1)) :=
  ⟨by decide,
    c3_failed_fetch_leaves_cache_unchanged 7 ⟨2, [(5, [9, 9])]⟩ (by decide)⟩

/-- C5: for every sequence of get-or-fetch calls against a cache of positive
capacity, `size ≤ capacity` holds after the sequence (and the capacity never
changes); since the sequence is arbitrary, the bound holds after every call of
any longer sequence. -/
theorem c5_cache_size_bounded (c : Cache) (calls : List (Nat × FetchOutcome))
    (hcap : 0 < c.cap) (hsize : c.size ≤ c.cap) :
    (runCalls c calls).size ≤ c.cap ∧ (runCalls c calls).cap = c.cap := by
  induction calls generalizing c with
  | nil => exact ⟨hsize, rfl⟩
  | cons call rest ih =>
    have h1 := getOrFetch_size_le call.1 call.2 c hcap hsize
    have h2 := getOrFetch_cap call.1 call.2 c
    have h3 := ih (getOrFetch call.1 call.2 c).2.1
      (by rw [h2]; exact hcap) (by rw [h2]; exact h1)
    rw [h2] at h3
    simpa [runCalls] using h3


/-- Witness for C5: a three-call sequence against the capacity-2 cache of the
source, starting from the empty state. -/
theorem c5_cache_size_bounded_witness :
    0 < (LruCache.empty Nat Bytes 2 : Cache).cap ∧
      (LruCache.empty Nat Bytes 2 : Cache).size ≤ 2 ∧
      (runCalls (LruCache.empty Nat Bytes 2)
          [(1, FetchOutcome.success 200 [1]), (2, FetchOutcome.success 200 [2]),
            (3, FetchOutcome.success 200 [3])]).size ≤ 2 :=
  ⟨by decide, by decide,
    (c5_cache_size_bounded (LruCache.empty Nat Bytes 2)
      [(1, FetchOutcome.success 200 [1]), (2, FetchOutcome.success 200 [2]),
        (3, FetchOutcome.success 200 [3])] (by decide) (by decide)).1⟩

/-- C6: recency is updated on hits and successful inserts.  Against a
capacity-2 cache, successful calls for distinct keys `a, b, a, c` in that
order leave exactly `c` (most recent) and `a` in the cache: the hit on `a`
promoted it, so the insert of `c` evicted `b`, the least recently used. -/
theorem c6_lru_evicts_least_recently_used (a b c : Nat) (va vb vc : Bytes)
    (s1 s2 s3 s4 : Nat) (hab : a ≠ b) (hac : a ≠ c) (hbc : b ≠ c) :
    runCalls (LruCache.empty Nat Bytes 2)
        [(a, FetchOutcome.success s1 va), (b, FetchOutcome.success s2 vb),
          (a, FetchOutcome.success s3 va), (c, FetchOutcome.success s4 vc)] =
      ⟨2, [(c, vc), (a, va)]⟩ := by
  have h1 : (a == b) = false := by simp [hab]
  have h2 : (b == a) = false := by simp [Ne.symm hab]
  have h3 : (a == a) = true := by simp
  have h4 : (a == c) = false := by simp [hac]
  have h5 : (b == c) = false := by simp [hbc]
  simp [runCalls, getOrFetch, LruCache.get, LruCache.put, LruCache.empty,
    List.find?, List.filter, h1, h2, h3, h4, h5]

/-- Witness for C6 at the concrete keys 10, 11, 12. -/
theorem c6_lru_evicts_least_recently_used_witness :
    (10 : Nat) ≠ 11 ∧ (10 : Nat) ≠ 12 ∧ (11 : Nat) ≠ 12 ∧
      runCalls (LruCache.empty Nat Bytes 2)
          [(10, FetchOutcome.success 200 [1]), (11, FetchOutcome.success 200 [2]),
            (10, FetchOutcome.success 200 [1]), (12, FetchOutcome.success 200 [3])] =
        ⟨2, [(12, [3]), (10, [1])]⟩ :=
  ⟨by decide, by decide, by decide,
    c6_lru_evicts_least_recently_used 10 11 12 [1] [2] [3] 200 200 200 200
      (by decide) (by decide) (by decide)⟩


/-! ## Claims about the `generate` handler -/

/-- C7: the handler maps each failure stage to its status: an undecodable
spec token answers 400 (Bad Request, with the cache untouched), a failed
fetch answers 400, and fetched bytes that do not decode as an image answer
500 (Internal Server Error); numerically, 400 and 500 are the codes of the
two statuses. -/
theorem c7_error_status_mapping {Img : Type} (T : Transformer Img)
    (specTok urlTok : String) (outcome : FetchOutcome) (cache : Cache) :
    (ImageSpec.decode specTok = none →
      generate T specTok urlTok outcome cache =
        (Except.error Status.badRequest, cache)) ∧
    (∀ spec e c2 n, ImageSpec.decode specTok = some spec →
      retrieve_image (parseUrlSegment urlTok) outcome cache =
        (Except.error e, c2, n) →
      generate T specTok urlTok outcome cache =
        (Except.error Status.badRequest, c2)) ∧
    (∀ spec data c2 n, ImageSpec.decode specTok = some spec →
      retrieve_image (parseUrlSegment urlTok) outcome cache =
        (Except.ok data, c2, n) →
      T.decodeImage data = none →
      generate T specTok urlTok outcome cache =
        (Except.error Status.internalServerError, c2)) ∧
    Status.badRequest.code = 400 ∧ Status.internalServerError.code = 500 := by
  refine ⟨fun hdec => ?_, fun spec e c2 n hdec hret => ?_,
    fun spec data c2 n hdec hret himg => ?_, rfl, rfl⟩
  · simp [generate, hdec]
  · simp [generate, hdec, hret]
  · simp [generate, hdec, hret, himg]

/-- Witness for C7: three concrete requests, one per failure stage — an
unknown tag answers 400; a connection failure answers 400; a plain-text body
(rejected by the image decoder) answers 500. -/
theorem c7_error_status_mapping_witness :
    (ImageSpec.decode "zz" = none ∧
      generate (Transformer.mk (fun _ => (none : Option Nat))
          (fun i _ => Except.ok i) (fun i => [i])) "zz" "u"
          FetchOutcome.connectFail mainCache =
        (Except.error Status.badRequest, mainCache)) ∧
    (ImageSpec.decode "" = some (ImageSpec.mk []) ∧
      generate (Transformer.mk (fun _ => (none : Option Nat))
          (fun i _ => Except.ok i) (fun i => [i])) "" "u"
          FetchOutcome.connectFail mainCache =
        (Except.error Status.badRequest, mainCache)) ∧
    (generate (Transformer.mk (fun _ => (none : Option Nat))
          (fun i _ => Except.ok i) (fun i => [i])) "" "u"
          (FetchOutcome.success 200 [104, 105]) mainCache =
        (Except.error Status.internalServerError,
          mainCache.put (urlKey (parseUrlSegment "u")) [104, 105])) := by
  refine ⟨⟨by decide, ?_⟩, ⟨by decide, ?_⟩, ?_⟩
  · exact (c7_error_status_mapping _ "zz" "u" FetchOutcome.connectFail
      mainCache).1 (by decide)
  · exact (c7_error_status_mapping _ "" "u" FetchOutcome.connectFail
      mainCache).2.1 ⟨[]⟩ FetchErr.connect mainCache 1 (by decide) rfl
  · exact (c7_error_status_mapping _ "" "u"
      (FetchOutcome.success 200 [104, 105]) mainCache).2.2.1 ⟨[]⟩ [104, 105]
      (mainCache.put (urlKey (parseUrlSegment "u")) [104, 105]) 1
      (by decide) rfl rfl


/-- A key whose lookup misses leaves `get` with no hit and the cache
untouched. -/
theorem LruCache.get_of_lookup_none {K V : Type} [DecidableEq K]
    (c : LruCache K V) (k : K) (h : c.lookup k = none) : c.get k = (none, c) := by
  unfold LruCache.lookup at h
  unfold LruCache.get
  cases hfind : c.entries.find? (fun p => p.1 == k) with
  | none => rfl
  | some e => rw [hfind] at h; cases h

/-- C4, amended: only transport-level failures (connection or body read)
yield a fetch error — the handler then answers 400 with the cache unchanged.
A completed response is accepted whatever its HTTP status: on a cache miss
the body is stored in the cache under the URL key regardless of the status
code, and the handler never answers 400 for it (it proceeds to image
decoding). -/
theorem c4_only_transport_failures_are_fetch_errors {Img : Type}
    (T : Transformer Img) (specTok urlTok : String) (cache : Cache)
    (spec : ImageSpec) (hdec : ImageSpec.decode specTok = some spec)
    (hmiss : cache.lookup (urlKey (parseUrlSegment urlTok)) = none) :
    generate T specTok urlTok FetchOutcome.connectFail cache =
        (Except.error Status.badRequest, cache) ∧
      (∀ s, generate T specTok urlTok (FetchOutcome.bodyFail s) cache =
        (Except.error Status.badRequest, cache)) ∧
      ∀ s body,
        (generate T specTok urlTok (FetchOutcome.success s body) cache).2 =
            cache.put (urlKey (parseUrlSegment urlTok)) body ∧
          (generate T specTok urlTok (FetchOutcome.success s body) cache).1 ≠
            Except.error Status.badRequest := by
  have hget := LruCache.get_of_lookup_none cache
    (urlKey (parseUrlSegment urlTok)) hmiss
  refine ⟨?_, fun s => ?_, fun s body => ?_⟩
  · simp [generate, hdec, retrieve_image, getOrFetch, hget]
  · simp [generate, hdec, retrieve_image, getOrFetch, hget]
  · cases himg : T.decodeImage body with
    | none => simp [generate, hdec, retrieve_image, getOrFetch, hget, himg]
    | some engine => simp [generate, hdec, retrieve_image, getOrFetch, hget, himg]

/-- Witness for C4 (amended) at a concrete request on the empty cache. -/
theorem c4_only_transport_failures_are_fetch_errors_witness :
    ImageSpec.decode "" = some (ImageSpec.mk []) ∧
      mainCache.lookup (urlKey (parseUrlSegment "u")) = none ∧
      generate (Transformer.mk (fun _ => (none : Option Nat))
          (fun i _ => Except.ok i) (fun i => [i])) "" "u"
          FetchOutcome.connectFail mainCache =
        (Except.error Status.badRequest, mainCache) :=
  ⟨by decide, rfl,
    (c4_only_transport_failures_are_fetch_errors
      (Transformer.mk (fun _ => (none : Option Nat))
        (fun i _ => Except.ok i) (fun i => [i])) "" "u" mainCache ⟨[]⟩
      (by decide) rfl).1⟩

/-- Counterexample for C4 as stated: a fetched response with the non-success
status 404 is not turned into a fetch error — at this concrete request the
handler does not answer 400 and the cache is modified (the 404 body is
stored). -/
theorem c4_counterexample_status_not_checked :
    ¬ ((generate (Transformer.mk (fun _ => (none : Option Nat))
          (fun i _ => Except.ok i) (fun i => [i])) "" "u"
          (FetchOutcome.success 404 [104, 105]) mainCache).1 =
        Except.error Status.badRequest ∧
      (generate (Transformer.mk (fun _ => (none : Option Nat))
          (fun i _ => Except.ok i) (fun i => [i])) "" "u"
          (FetchOutcome.success 404 [104, 105]) mainCache).2 = mainCache) := by
  intro h
  exact absurd h.1 (by decide)

/-- C8, amended: the transformer fold visits the operations in order and
stops at the first failing operation, but a failure does not abort the
request: `generate` never consults the outcome of
`engine.apply(&spec.specs);` (`src/src/main.rs:71`), so once the image bytes
decode, the handler answers 200 with the encoding of the image the fold
reached — the untransformed or partially transformed image when an operation
failed. -/
theorem c8_apply_failure_does_not_abort {Img : Type} (T : Transformer Img)
    (specTok urlTok : String) (outcome : FetchOutcome) (cache c2 : Cache)
    (spec : ImageSpec) (data : Bytes) (engine : Img) (n : Nat)
    (hdec : ImageSpec.decode specTok = some spec)
    (hret : retrieve_image (parseUrlSegment urlTok) outcome cache =
      (Except.ok data, c2, n))
    (himg : T.decodeImage data = some engine) :
    generate T specTok urlTok outcome cache =
        (Except.ok ([("content-type", "image/png")],
          T.encodeImage (applySpecs T.applyOne engine spec.specs).1), c2) ∧
      ∀ (img : Img) (s : Spec) (rest : List Spec) (e : OpError),
        T.applyOne img s = Except.error e →
        applySpecs T.applyOne img (s :: rest) = (img, some e) := by
  constructor
  · simp [generate, hdec, hret, himg]
  · intro img sp rest e happ
    simp [applySpecs, happ]

/-- Witness for C8 (amended): a transformer whose first operation fails; the
request still answers 200 with the untransformed image. -/
theorem c8_apply_failure_does_not_abort_witness :
    ImageSpec.decode "w_1_2" = some (ImageSpec.mk [Spec.watermark 1 2]) ∧
      generate (Transformer.mk (fun _ => some (0 : Nat))
          (fun _ _ => Except.error OpError.opError) (fun i => [i])) "w_1_2" "u"
          (FetchOutcome.success 200 [5]) mainCache =
        (Except.ok ([("content-type", "image/png")], [0]),
          mainCache.put (urlKey (parseUrlSegment "u")) [5]) :=
  ⟨by decide,
    (c8_apply_failure_does_not_abort
      (Transformer.mk (fun _ => some (0 : Nat))
        (fun _ _ => Except.error OpError.opError) (fun i => [i])) "w_1_2" "u"
      (FetchOutcome.success 200 [5]) mainCache
      (mainCache.put (urlKey (parseUrlSegment "u")) [5])
      ⟨[Spec.watermark 1 2]⟩ [5] 0 1 (by decide) rfl rfl).1⟩

/-- Counterexample for C8 as stated: at this concrete request the only
operation fails, yet the request is not aborted — the handler answers 200
and returns the untransformed image, not `Failed(OperationError)`. -/
theorem c8_counterexample_no_abort :
    (Transformer.mk (fun _ => some (0 : Nat))
        (fun _ _ => Except.error OpError.opError)
        (fun i => [i])).applyOne 0 (Spec.watermark 1 2) =
        Except.error OpError.opError ∧
      (generate (Transformer.mk (fun _ => some (0 : Nat))
          (fun _ _ => Except.error OpError.opError) (fun i => [i])) "w_1_2" "u"
          (FetchOutcome.success 200 [5]) mainCache).1 =
        Except.ok ([("content-type", "image/png")], [0]) := by
  exact ⟨rfl, by decide⟩


/-- A fetch that completes always yields bytes from `retrieve_image`: the
stored entry on a hit, the response body on a miss (whatever the status). -/
theorem retrieve_image_success_ok (url : String) (st : Nat) (body : Bytes)
    (c : Cache) :
    ∃ data c2 n, retrieve_image url (FetchOutcome.success st body) c =
      (Except.ok data, c2, n) := by
  unfold retrieve_image getOrFetch
  cases hget : c.get (urlKey url) with
  | mk found c2 =>
    cases found with
    | some v => exact ⟨v, c2, 0, rfl⟩
    | none => exact ⟨body, c2.put (urlKey url) body, 1, rfl⟩

/-- C9: the URL path segment is percent-decoded to a UTF-8 string lossily and
no further URL validation happens before the fetch: for every URL token —
however malformed — a request whose other stages succeed is answered 200, so
URL decoding never causes the handler to return an error; and an invalid byte
sequence (here the byte `0xFF`, written `%FF`) decodes to the replacement
character `U+FFFD` instead of failing. -/
theorem c9_lossy_url_decoding_never_fails {Img : Type} (T : Transformer Img)
    (specTok urlTok : String) (cache : Cache) (spec : ImageSpec) (st : Nat)
    (body : Bytes) (hdec : ImageSpec.decode specTok = some spec)
    (himg : ∀ b : Bytes, (T.decodeImage b).isSome) :
    (∃ resp c2, generate T specTok urlTok (FetchOutcome.success st body) cache =
      (Except.ok resp, c2)) ∧
      utf8Lossy (percentDecode (String.data "%FF")) = [repl] := by
  constructor
  · obtain ⟨data, c2, n, hret⟩ :=
      retrieve_image_success_ok (parseUrlSegment urlTok) st body cache
    obtain ⟨engine, hengine⟩ := Option.isSome_iff_exists.mp (himg data)
    exact ⟨([("content-type", "image/png")],
      T.encodeImage (applySpecs T.applyOne engine spec.specs).1), c2,
      by simp [generate, hdec, hret, hengine]⟩
  · have h1 : percentDecode (String.data "%FF") = [255] := by
      show percentDecode ['%', 'F', 'F'] = [255]
      simp [percentDecode, hexVal]
    rw [h1]
    simp [utf8Lossy, utf8Step]

/-- Witness for C9 on a URL token that mixes an invalid UTF-8 escape with an
invalid percent escape; the request still succeeds. -/
theorem c9_lossy_url_decoding_never_fails_witness :
    ImageSpec.decode "" = some (ImageSpec.mk []) ∧
      (∀ b : Bytes, ((Transformer.mk (fun _ => some (0 : Nat))
        (fun i _ => Except.ok i) (fun i => [i])).decodeImage b).isSome) ∧
      ((∃ resp c2, generate (Transformer.mk (fun _ => some (0 : Nat))
          (fun i _ => Except.ok i) (fun i => [i])) "" "%FF%zz"
          (FetchOutcome.success 200 [5]) mainCache = (Except.ok resp, c2)) ∧
        utf8Lossy (percentDecode (String.data "%FF")) = [repl]) :=
  ⟨by decide, fun _ => rfl,
    c9_lossy_url_decoding_never_fails
      (Transformer.mk (fun _ => some (0 : Nat)) (fun i _ => Except.ok i)
        (fun i => [i])) "" "%FF%zz" mainCache ⟨[]⟩ 200 [5] (by decide)
      (fun _ => rfl)⟩

/-- All four SipHash state words are below `2 ^ 64` after a round: every word
is produced by a wrapping addition, a rotation, or an exclusive-or of two
such values. -/
theorem sipRound_bounded (s : SipState) :
    (sipRound s).v0 < 2 ^ 64 ∧ (sipRound s).v1 < 2 ^ 64 ∧
      (sipRound s).v2 < 2 ^ 64 ∧ (sipRound s).v3 < 2 ^ 64 := by
  have hpos : 0 < 2 ^ 64 := Nat.pos_pow_of_pos 64 (by omega)
  refine ⟨Nat.mod_lt _ hpos, ?_, Nat.mod_lt _ hpos, ?_⟩
  · exact Nat.xor_lt_two_pow (Nat.mod_lt _ hpos) (Nat.mod_lt _ hpos)
  · exact Nat.xor_lt_two_pow (Nat.mod_lt _ hpos) (Nat.mod_lt _ hpos)

/-- After at least one round the whole state is below `2 ^ 64`. -/
theorem sipRounds_succ_bounded (n : Nat) (s : SipState) :
    (sipRounds (n + 1) s).v0 < 2 ^ 64 ∧ (sipRounds (n + 1) s).v1 < 2 ^ 64 ∧
      (sipRounds (n + 1) s).v2 < 2 ^ 64 ∧ (sipRounds (n + 1) s).v3 < 2 ^ 64 := by
  induction n generalizing s with
  | zero => exact sipRound_bounded s
  | succ m ih => exact ih (sipRound s)

/-- `sipProcess` always exits through the finalization, whose three rounds
bound the state below `2 ^ 64`. -/
theorem sipProcess_bounded (msg : List Nat) (len : Nat) (s : SipState) :
    (sipProcess len s msg).v0 < 2 ^ 64 ∧ (sipProcess len s msg).v1 < 2 ^ 64 ∧
      (sipProcess len s msg).v2 < 2 ^ 64 ∧ (sipProcess len s msg).v3 < 2 ^ 64 := by
  induction s, msg using sipProcess.induct len with
  | case1 s b0 b1 b2 b3 b4 b5 b6 b7 rest ih =>
    rw [sipProcess.eq_def]
    exact ih
  | case2 s tail h =>
    rw [sipProcess.eq_def]
    split
    · rename_i x b0 b1 b2 b3 b4 b5 b6 b7 rest
      exact (h b0 b1 b2 b3 b4 b5 b6 b7 rest rfl).elim
    · exact sipRounds_succ_bounded 2 _

/-- C10: the cache key is a 64-bit fingerprint computed deterministically
from the decoded URL string — equal URL strings give equal keys, the key is
below `2 ^ 64`, `retrieve_image` resolves every URL through exactly this key,
and the cache created in `main` has fixed capacity 1024. -/
theorem c10_cache_key_deterministic_64bit (u1 u2 : String) (h : u1 = u2) :
    urlKey u1 = urlKey u2 ∧ urlKey u1 < 2 ^ 64 ∧
      (∀ outcome c, retrieve_image u1 outcome c =
        getOrFetch (urlKey u1) outcome c) ∧
      mainCache.cap = 1024 := by
  subst h
  refine ⟨rfl, ?_, fun outcome c => rfl, rfl⟩
  unfold urlKey siphash13
  have hb := sipProcess_bounded (strBytes u1 ++ [0xff])
    (strBytes u1 ++ [0xff]).length
    ⟨0x736f6d6570736575, 0x646f72616e646f6d, 0x6c7967656e657261, 0x7465646279746573⟩
  exact Nat.xor_lt_two_pow (Nat.xor_lt_two_pow hb.1 hb.2.1)
    (Nat.xor_lt_two_pow hb.2.2.1 hb.2.2.2)

/-- Witness for C10 at two (equal) concrete URL strings. -/
theorem c10_cache_key_deterministic_64bit_witness :
    ("https://a.com/p.jpg" : String) = "https://a.com/p.jpg" ∧
      (urlKey "https://a.com/p.jpg" = urlKey "https://a.com/p.jpg" ∧
        urlKey "https://a.com/p.jpg" < 2 ^ 64 ∧
        (∀ outcome c, retrieve_image "https://a.com/p.jpg" outcome c =
          getOrFetch (urlKey "https://a.com/p.jpg") outcome c) ∧
        mainCache.cap = 1024) :=
  ⟨rfl, c10_cache_key_deterministic_64bit "https://a.com/p.jpg"
    "https://a.com/p.jpg" rfl⟩


/-! ## Round trip of the spec codec -/

theorem string_data_mk (l : List Char) : (String.mk l).data = l := rfl

theorem digitChar_isDigit (n : Nat) (h : n < 10) :
    (digitChar n).isDigit = true := by
  interval_cases n <;> decide

theorem digitChar_toNat (n : Nat) (h : n < 10) :
    (digitChar n).toNat = 48 + n := by
  interval_cases n <;> decide

theorem natToDigits_ne_nil (n : Nat) : natToDigits n ≠ [] := by
  induction n using natToDigits.induct with
  | case1 n h => rw [natToDigits, dif_pos h]; simp
  | case2 n h ih => rw [natToDigits, dif_neg h]; simp

theorem natToDigits_all_digit (n : Nat) :
    ∀ c ∈ natToDigits n, c.isDigit = true := by
  induction n using natToDigits.induct with
  | case1 n h =>
    rw [natToDigits, dif_pos h]
    intro c hc
    rw [List.mem_singleton] at hc
    subst hc
    exact digitChar_isDigit n h
  | case2 n h ih =>
    rw [natToDigits, dif_neg h]
    intro c hc
    rw [List.mem_append, List.mem_singleton] at hc
    rcases hc with hc | hc
    · exact ih c hc
    · subst hc
      exact digitChar_isDigit _ (Nat.mod_lt _ (by omega))

theorem digitsVal_append (a : Nat) (xs ys : List Char) :
    digitsVal a (xs ++ ys) = digitsVal (digitsVal a xs) ys := by
  induction xs generalizing a with
  | nil => rfl
  | cons c cs ih => exact ih (a * 10 + (c.toNat - 48))

theorem digitsVal_natToDigits (n : Nat) :
    ∀ a, digitsVal a (natToDigits n) =
      a * 10 ^ (natToDigits n).length + n := by
  induction n using natToDigits.induct with
  | case1 n h =>
    intro a
    rw [natToDigits, dif_pos h]
    have h1 : digitsVal a [digitChar n] = a * 10 + ((digitChar n).toNat - 48) := rfl
    have h2 : ([digitChar n] : List Char).length = 1 := rfl
    rw [h1, h2, digitChar_toNat n h, pow_one]
    omega
  | case2 n h ih =>
    intro a
    rw [natToDigits, dif_neg h]
    have h1 : ∀ b, digitsVal b [digitChar (n % 10)] =
        b * 10 + ((digitChar (n % 10)).toNat - 48) := fun b => rfl
    have h2 : (digitChar (n % 10)).toNat = 48 + n % 10 :=
      digitChar_toNat _ (Nat.mod_lt _ (by omega))
    have h3 : (natToDigits (n / 10) ++ [digitChar (n % 10)]).length =
        (natToDigits (n / 10)).length + 1 := by
      rw [List.length_append]
      rfl
    rw [digitsVal_append, h1, h2, ih a, h3, Nat.pow_succ, Nat.add_mul,
      ← Nat.mul_assoc]
    omega

theorem parseNat_natToDigits (n : Nat) : parseNat (natToDigits n) = some n := by
  unfold parseNat
  rw [if_pos]
  · rw [digitsVal_natToDigits n 0]
    simp
  · refine ⟨natToDigits_ne_nil n, ?_⟩
    rw [List.all_eq_true]
    exact natToDigits_all_digit n


theorem splitSep_ne_nil (sep : Char) (l : List Char) : splitSep sep l ≠ [] := by
  induction l with
  | nil => simp [splitSep]
  | cons c cs ih =>
    rw [splitSep]
    cases hr : splitSep sep cs with
    | nil => simp
    | cons r rs => by_cases hc : c = sep <;> simp [hc]

theorem splitSep_no_sep (sep : Char) (x : List Char) (hx : sep ∉ x) :
    splitSep sep x = [x] := by
  induction x with
  | nil => rfl
  | cons c cs ih =>
    rw [List.mem_cons, not_or] at hx
    rw [splitSep, ih hx.2]
    have hcs : ¬c = sep := fun h => hx.1 h.symm
    simp [hcs]

theorem splitSep_append_sep (sep : Char) (x t : List Char) (hx : sep ∉ x) :
    splitSep sep (x ++ sep :: t) = x :: splitSep sep t := by
  induction x with
  | nil =>
    rw [List.nil_append, splitSep]
    cases hr : splitSep sep t with
    | nil => exact absurd hr (splitSep_ne_nil sep t)
    | cons r rs => simp
  | cons c cs ih =>
    rw [List.mem_cons, not_or] at hx
    rw [List.cons_append, splitSep, ih hx.2]
    have hcs : ¬c = sep := fun h => hx.1 h.symm
    simp [hcs]

theorem splitSep_joinSep (sep : Char) (xss : List (List Char))
    (hne : xss ≠ []) (hsep : ∀ x ∈ xss, sep ∉ x) :
    splitSep sep (joinSep sep xss) = xss := by
  induction xss with
  | nil => exact absurd rfl hne
  | cons x rest ih =>
    cases rest with
    | nil =>
      rw [joinSep]
      exact splitSep_no_sep sep x (hsep x (List.mem_cons_self x []))
    | cons y rest2 =>
      rw [joinSep, splitSep_append_sep sep x _ (hsep x (List.mem_cons_self x _)),
        ih (by simp) (fun z hz => hsep z (List.mem_cons_of_mem x hz))]


theorem non_digit_notin_natToDigits (n : Nat) (c : Char)
    (hc : c.isDigit = false) : c ∉ natToDigits n := by
  intro hmem
  rw [natToDigits_all_digit n c hmem] at hc
  cases hc

theorem sampleFilter_ofTag_tag (f : SampleFilter) :
    SampleFilter.ofTag f.tag = some f := by
  cases f <;> rfl

theorem filter_ofTag_tag (k : Filter) : Filter.ofTag k.tag = some k := by
  cases k <;> rfl

theorem mem_joinSep (sep c : Char) (xss : List (List Char))
    (h : c ∈ joinSep sep xss) : c = sep ∨ ∃ x ∈ xss, c ∈ x := by
  induction xss with
  | nil => cases h
  | cons x rest ih =>
    cases rest with
    | nil =>
      rw [joinSep] at h
      exact Or.inr ⟨x, List.mem_cons_self x [], h⟩
    | cons y rest2 =>
      rw [joinSep, List.mem_append, List.mem_cons] at h
      rcases h with h | h | h
      · exact Or.inr ⟨x, List.mem_cons_self x _, h⟩
      · exact Or.inl h
      · rcases ih h with h2 | ⟨z, hz, hcz⟩
        · exact Or.inl h2
        · exact Or.inr ⟨z, List.mem_cons_of_mem x hz, hcz⟩

theorem dash_notin_encode (op : Spec) : '-' ∉ Spec.encode op := by
  intro hmem
  cases op with
  | resize w h f =>
    rcases mem_joinSep '_' '-' _ hmem with h1 | ⟨x, hx, hcx⟩
    · cases h1
    · rw [List.mem_cons, List.mem_cons, List.mem_cons, List.mem_singleton] at hx
      rcases hx with rfl | rfl | rfl | rfl
      · cases hcx with
        | tail _ h2 => cases h2
      · exact non_digit_notin_natToDigits w '-' (by decide) hcx
      · exact non_digit_notin_natToDigits h '-' (by decide) hcx
      · exact non_digit_notin_natToDigits f.tag '-' (by decide) hcx
  | watermark x y =>
    rcases mem_joinSep '_' '-' _ hmem with h1 | ⟨z, hz, hcz⟩
    · cases h1
    · rw [List.mem_cons, List.mem_cons, List.mem_singleton] at hz
      rcases hz with rfl | rfl | rfl
      · cases hcz with
        | tail _ h2 => cases h2
      · exact non_digit_notin_natToDigits x '-' (by decide) hcz
      · exact non_digit_notin_natToDigits y '-' (by decide) hcz
  | colorFilter k =>
    rcases mem_joinSep '_' '-' _ hmem with h1 | ⟨z, hz, hcz⟩
    · cases h1
    · rw [List.mem_cons, List.mem_singleton] at hz
      rcases hz with rfl | rfl
      · cases hcz with
        | tail _ h2 => cases h2
      · exact non_digit_notin_natToDigits k.tag '-' (by decide) hcz


theorem Spec.encode_ne_nil (op : Spec) : Spec.encode op ≠ [] := by
  cases op <;> simp [Spec.encode, joinSep]

theorem Spec.decode_encode (op : Spec) : Spec.decode (Spec.encode op) = some op := by
  cases op with
  | resize w h f =>
    unfold Spec.encode Spec.decode
    rw [splitSep_joinSep '_' [['r'], natToDigits w, natToDigits h,
      natToDigits (SampleFilter.tag f)] (by simp) ?_]
    · simp [parseNat_natToDigits, sampleFilter_ofTag_tag]
    · intro x hx
      rw [List.mem_cons, List.mem_cons, List.mem_cons, List.mem_singleton] at hx
      rcases hx with rfl | rfl | rfl | rfl
      · decide
      · exact non_digit_notin_natToDigits w '_' (by decide)
      · exact non_digit_notin_natToDigits h '_' (by decide)
      · exact non_digit_notin_natToDigits _ '_' (by decide)
  | watermark x y =>
    unfold Spec.encode Spec.decode
    rw [splitSep_joinSep '_' [['w'], natToDigits x, natToDigits y]
      (by simp) ?_]
    · simp [parseNat_natToDigits]
    · intro z hz
      rw [List.mem_cons, List.mem_cons, List.mem_singleton] at hz
      rcases hz with rfl | rfl | rfl
      · decide
      · exact non_digit_notin_natToDigits x '_' (by decide)
      · exact non_digit_notin_natToDigits y '_' (by decide)
  | colorFilter k =>
    unfold Spec.encode Spec.decode
    rw [splitSep_joinSep '_' [['f'], natToDigits (Filter.tag k)]
      (by simp) ?_]
    · simp [parseNat_natToDigits, filter_ofTag_tag]
    · intro z hz
      rw [List.mem_cons, List.mem_singleton] at hz
      rcases hz with rfl | rfl
      · decide
      · exact non_digit_notin_natToDigits _ '_' (by decide)


theorem joinSep_cons_ne_nil (sep : Char) (x : List Char) (xs : List (List Char))
    (hx : x ≠ []) : joinSep sep (x :: xs) ≠ [] := by
  cases xs with
  | nil => rw [joinSep]; exact hx
  | cons y rest => rw [joinSep]; simp

theorem mapM_decode_map_encode (l : List Spec) :
    (l.map Spec.encode).mapM Spec.decode = some l := by
  induction l with
  | nil => rfl
  | cons op rest ih =>
    rw [List.map_cons, List.mapM_cons, Spec.decode_encode op, ih]
    rfl

/-- C1: the spec codec round-trips — decoding the token produced by encoding
any `ImageSpec` built from the three operation variants yields the original
spec, with the operation order preserved. -/
theorem c1_spec_codec_roundtrip (s : ImageSpec) :
    ImageSpec.decode (ImageSpec.encode s) = some s := by
  cases s with
  | mk specs =>
    cases specs with
    | nil => rfl
    | cons s0 rest =>
      have hjoin : joinSep '-' ((s0 :: rest).map Spec.encode) ≠ [] := by
        rw [List.map_cons]
        exact joinSep_cons_ne_nil '-' _ _ (Spec.encode_ne_nil s0)
      obtain ⟨c, cs, heq⟩ := List.exists_cons_of_ne_nil hjoin
      have hdash : ∀ z ∈ (s0 :: rest).map Spec.encode, '-' ∉ z := by
        intro z hz
        rw [List.mem_map] at hz
        obtain ⟨op, _, rfl⟩ := hz
        exact dash_notin_encode op
      unfold ImageSpec.encode ImageSpec.decode
      rw [string_data_mk, heq]
      show ((splitSep '-' (c :: cs)).mapM Spec.decode).map ImageSpec.mk =
        some ⟨s0 :: rest⟩
      rw [← heq, splitSep_joinSep '-' _ (by simp) hdash,
        mapM_decode_map_encode]
      rfl

end Thumbor
